import Mathlib

/-!
# Verification of the vocal-harmonizer diagram/retrieval specification

This file gives a shallow embedding, in Lean 4, of the parts of the
repository that the specification's testable claims are about:

* the diagram serializer of `frontend/src/types.ts`
  (`serialize`, `getConnectorSymbol`, `sanitize`);
* the vector similarity-search function `match_compliance_rules` of
  `backend/setup_supabase.sql`;
* the App state operation `deleteNode` of `frontend/src/App.tsx`
  together with the Canvas connection-creation flow.

TypeScript runtime strings are modelled by `String`, optional fields by
`Option`, SQL `FLOAT` by `ℚ`, and the pgvector cosine-distance operator
`<=>` (which lives inside the external vector store, not in this
repository) by an abstract assignment of a rational distance to each
stored rule.
-/

namespace VocalHarmonizer

/-! ## Data model of the frontend (frontend/src/types.ts)

In `types.ts` the interface `DiagramConnection` declares `from`/`to` as
strings, but `serialize` (and `App.tsx`, `ConnectionComponent.tsx`) read
`conn.from.type` / `conn.from.id`, i.e. treat the endpoints as node
references.  We model `serialize`'s own view of its input: endpoints are
records carrying `id` and `type`.  The Canvas flow, which actually stores
plain strings in the endpoints, is modelled separately below for the
`deleteNode` analysis. -/

structure NodeRef where
  id : String
  type : String
deriving DecidableEq, Repr

structure DiagramConnection where
  id : String
  «from» : NodeRef
  «to» : NodeRef
  label : Option String := none
  /-- TS declares `type?: 'solid' | 'dashed' | 'dotted'`; at runtime any
  string (or `undefined`) may occupy the field, so we model it as
  `Option String`. -/
  type : Option String := none
  color : Option String := none
deriving DecidableEq, Repr

/-- `getConnectorSymbol` from `types.ts`: a switch with cases for
`'dashed'` and `'dotted'` and a default branch returning `'->'`. -/
def getConnectorSymbol : Option String → String
  | some "dashed" => "-->"
  | some "dotted" => "..>"
  | _ => "->"

/-- The interior line `serialize` pushes for one connection:
`` `${fromType} ${fromId} ${connector} ${toType} ${toId}` ``. -/
def serializeLine (conn : DiagramConnection) : String :=
  conn.«from».type ++ " " ++ conn.«from».id ++ " " ++
    getConnectorSymbol conn.type ++ " " ++ conn.«to».type ++ " " ++ conn.«to».id

/-- JavaScript `Array.prototype.join('\n')`. -/
def joinLines : List String → String
  | [] => ""
  | [l] => l
  | l :: l2 :: ls => l ++ "\n" ++ joinLines (l2 :: ls)

/-- `serialize` from `types.ts`: pushes `@startdiagram`, one line per
connection in input order, `@enddiagram`, and joins with `'\n'`. -/
def serialize (connections : List DiagramConnection) : String :=
  joinLines (["@startdiagram"] ++ connections.map serializeLine ++ ["@enddiagram"])

/-- `sanitize` from `types.ts`:
`label.replace(/[^a-zA-Z0-9_\- ]/g, '_')`.  Note that the regex
character class also admits the space character. -/
def sanitizeChar (c : Char) : Char :=
  if ('a' ≤ c ∧ c ≤ 'z') ∨ ('A' ≤ c ∧ c ≤ 'Z') ∨ ('0' ≤ c ∧ c ≤ '9') ∨
      c = '_' ∨ c = '-' ∨ c = ' ' then c else '_'

def sanitize (label : String) : String :=
  String.mk (label.toList.map sanitizeChar)

/-! ## Character-level observers: lines and whitespace tokens

The claims speak about the *lines* of the produced text and the
*whitespace-separated tokens* of each line.  We define these observers
over `List Char` and reason there. -/

/-- Split a character list at every occurrence of `sep`
(the result is never empty). -/
def splitOnChar (sep : Char) : List Char → List (List Char)
  | [] => [[]]
  | c :: cs =>
    if c = sep then [] :: splitOnChar sep cs
    else (c :: (splitOnChar sep cs).headI) :: (splitOnChar sep cs).tail

/-- The lines of a string, as character lists. -/
def linesOf (s : String) : List (List Char) :=
  splitOnChar '\n' s.toList

/-- Whitespace-separated tokens of a line. -/
def tokensOf (l : List Char) : List (List Char) :=
  (splitOnChar ' ' l).filter (fun t => !t.isEmpty)

theorem splitOnChar_ne_nil (sep : Char) (l : List Char) :
    splitOnChar sep l ≠ [] := by
  cases l with
  | nil => simp [splitOnChar]
  | cons c cs => by_cases hc : c = sep <;> simp [splitOnChar, hc]

theorem splitOnChar_of_not_mem {sep : Char} {l : List Char}
    (h : sep ∉ l) : splitOnChar sep l = [l] := by
  induction l with
  | nil => rfl
  | cons c cs ih =>
    have hc : c ≠ sep := fun hcs => h (hcs ▸ List.mem_cons_self c cs)
    have hcs : sep ∉ cs := fun hm => h (List.mem_cons_of_mem _ hm)
    simp [splitOnChar, ih hcs, hc]

theorem splitOnChar_append {sep : Char} {a : List Char} (b : List Char)
    (h : sep ∉ a) : splitOnChar sep (a ++ sep :: b) = a :: splitOnChar sep b := by
  induction a with
  | nil => simp [splitOnChar]
  | cons c a' ih =>
    have hc : c ≠ sep := fun hcs => h (hcs ▸ List.mem_cons_self c a')
    have ha' : sep ∉ a' := fun hm => h (List.mem_cons_of_mem _ hm)
    simp [splitOnChar, ih ha', hc]

theorem mem_splitOnChar_subset {sep : Char} {l part : List Char}
    (h : part ∈ splitOnChar sep l) : ∀ c ∈ part, c ∈ l := by
  induction l generalizing part with
  | nil =>
    simp only [splitOnChar, List.mem_singleton] at h
    subst h; intro c hc; exact absurd hc (List.not_mem_nil c)
  | cons x xs ih =>
    rcases hs : splitOnChar sep xs with _ | ⟨l0, ls⟩
    · exact absurd hs (splitOnChar_ne_nil sep xs)
    · simp only [splitOnChar, hs, List.headI, List.tail_cons] at h
      by_cases hx : x = sep
      · rw [if_pos hx] at h
        rcases List.mem_cons.mp h with h | h
        · subst h; intro c hc; exact absurd hc (List.not_mem_nil c)
        · intro c hc
          exact List.mem_cons_of_mem _ (ih (hs ▸ h) c hc)
      · rw [if_neg hx] at h
        rcases List.mem_cons.mp h with h | h
        · subst h
          intro c hc
          rcases List.mem_cons.mp hc with h | h
          · exact h ▸ List.mem_cons_self x xs
          · exact List.mem_cons_of_mem _
              (ih (hs ▸ List.mem_cons_self l0 ls) c h)
        · intro c hc
          exact List.mem_cons_of_mem _
            (ih (hs ▸ (List.mem_cons_of_mem l0 h : part ∈ l0 :: ls)) c hc)

theorem mem_splitOnChar_not_mem {sep : Char} {l part : List Char}
    (h : part ∈ splitOnChar sep l) : sep ∉ part := by
  induction l generalizing part with
  | nil =>
    simp only [splitOnChar, List.mem_singleton] at h
    subst h; exact List.not_mem_nil sep
  | cons x xs ih =>
    rcases hs : splitOnChar sep xs with _ | ⟨l0, ls⟩
    · exact absurd hs (splitOnChar_ne_nil sep xs)
    · simp only [splitOnChar, hs, List.headI, List.tail_cons] at h
      by_cases hx : x = sep
      · rw [if_pos hx] at h
        rcases List.mem_cons.mp h with h | h
        · subst h; exact List.not_mem_nil sep
        · exact ih (hs ▸ h)
      · rw [if_neg hx] at h
        rcases List.mem_cons.mp h with h | h
        · subst h
          intro hc
          rcases List.mem_cons.mp hc with h | h
          · exact hx h.symm
          · exact ih (hs ▸ List.mem_cons_self l0 ls) h
        · exact ih (hs ▸ (List.mem_cons_of_mem l0 h : part ∈ l0 :: ls))

/-- Character-level join with `'\n'`. -/
def joinLinesCh : List (List Char) → List Char
  | [] => []
  | [l] => l
  | l :: l2 :: ls => l ++ '\n' :: joinLinesCh (l2 :: ls)

theorem toList_append (s t : String) : (s ++ t).toList = s.toList ++ t.toList := rfl

theorem toList_joinLines (ls : List String) :
    (joinLines ls).toList = joinLinesCh (ls.map String.toList) := by
  induction ls with
  | nil => rfl
  | cons l ls ih =>
    cases ls with
    | nil => rfl
    | cons l2 ls' =>
      simp only [joinLines, List.map_cons, joinLinesCh, toList_append, ih,
        List.append_assoc]
      rfl

theorem splitOnChar_joinLinesCh {ls : List (List Char)} (hne : ls ≠ [])
    (h : ∀ l ∈ ls, '\n' ∉ l) : splitOnChar '\n' (joinLinesCh ls) = ls := by
  induction ls with
  | nil => exact absurd rfl hne
  | cons l ls ih =>
    cases ls with
    | nil =>
      exact splitOnChar_of_not_mem (h l (List.mem_cons_self l []))
    | cons l2 ls' =>
      have h1 : '\n' ∉ l := h l (List.mem_cons_self _ _)
      have h2 : ∀ x ∈ l2 :: ls', '\n' ∉ x := fun x hx =>
        h x (List.mem_cons_of_mem _ hx)
      simp only [joinLinesCh, splitOnChar_append _ h1,
        ih (List.cons_ne_nil l2 ls') h2]

/-! ## Well-formedness of tokens

The grammar of §4.1 requires whitespace-separated tokens, so a field can
only occupy one token slot when it is nonempty and free of separator
characters. -/

def wfToken (s : String) : Prop :=
  s.toList ≠ [] ∧ ' ' ∉ s.toList ∧ '\n' ∉ s.toList

instance (s : String) : Decidable (wfToken s) := by
  unfold wfToken; infer_instance

def wfConnection (c : DiagramConnection) : Prop :=
  wfToken c.«from».type ∧ wfToken c.«from».id ∧ wfToken c.«to».type ∧ wfToken c.«to».id

instance (c : DiagramConnection) : Decidable (wfConnection c) := by
  unfold wfConnection; infer_instance

theorem getConnectorSymbol_wfToken (t : Option String) :
    wfToken (getConnectorSymbol t) := by
  unfold getConnectorSymbol
  split <;> decide

theorem toList_space : (" " : String).toList = [' '] := rfl

theorem serializeLine_toList (c : DiagramConnection) :
    (serializeLine c).toList =
      c.«from».type.toList ++ ' ' :: (c.«from».id.toList ++ ' ' ::
        ((getConnectorSymbol c.type).toList ++ ' ' ::
          (c.«to».type.toList ++ ' ' :: c.«to».id.toList))) := by
  simp [serializeLine, toList_append, toList_space, List.append_assoc]

theorem serializeLine_no_newline {c : DiagramConnection} (h : wfConnection c) :
    '\n' ∉ (serializeLine c).toList := by
  rw [serializeLine_toList]
  have hsym := getConnectorSymbol_wfToken c.type
  intro hm
  simp only [List.mem_append, List.mem_cons] at hm
  rcases hm with hm | hm | hm | hm | hm | hm | hm | hm | hm
  · exact h.1.2.2 hm
  · exact absurd hm.symm (by decide)
  · exact h.2.1.2.2 hm
  · exact absurd hm.symm (by decide)
  · exact hsym.2.2 hm
  · exact absurd hm.symm (by decide)
  · exact h.2.2.1.2.2 hm
  · exact absurd hm.symm (by decide)
  · exact h.2.2.2.2.2 hm

theorem tokens_serializeLine {c : DiagramConnection} (h : wfConnection c) :
    splitOnChar ' ' (serializeLine c).toList =
      [c.«from».type.toList, c.«from».id.toList, (getConnectorSymbol c.type).toList,
        c.«to».type.toList, c.«to».id.toList] := by
  rw [serializeLine_toList]
  rw [splitOnChar_append _ h.1.2.1, splitOnChar_append _ h.2.1.2.1,
    splitOnChar_append _ (getConnectorSymbol_wfToken c.type).2.1,
    splitOnChar_append _ h.2.2.1.2.1, splitOnChar_of_not_mem h.2.2.2.2.1]

theorem linesOf_serialize {cs : List DiagramConnection}
    (h : ∀ c ∈ cs, wfConnection c) :
    linesOf (serialize cs) =
      "@startdiagram".toList :: cs.map (fun c => (serializeLine c).toList)
        ++ ["@enddiagram".toList] := by
  unfold linesOf serialize
  rw [toList_joinLines]
  have hmap : (["@startdiagram"] ++ cs.map serializeLine ++ ["@enddiagram"]).map String.toList
      = "@startdiagram".toList :: cs.map (fun c => (serializeLine c).toList)
        ++ ["@enddiagram".toList] := by
    simp [List.map_append, List.map_map, Function.comp]
  rw [hmap]
  apply splitOnChar_joinLinesCh
  · exact List.cons_ne_nil _ _
  · intro l hl
    rcases List.mem_cons.mp hl with hl | hl
    · subst hl; decide
    · rcases List.mem_append.mp hl with hl | hl
      · rcases List.mem_map.mp hl with ⟨c, hc, hcl⟩
        exact hcl ▸ serializeLine_no_newline (h c hc)
      · rcases List.mem_singleton.mp hl with hl
        subst hl; decide

/-! ## Claim C1: shape of the serialized text -/

/-- The interior line of a connection tokenizes into exactly the five
fields `<serviceType> <nodeId> <connector> <serviceType> <nodeId>`. -/
def interiorTokensOk (c : DiagramConnection) : Prop :=
  splitOnChar ' ' (serializeLine c).toList =
    [c.«from».type.toList, c.«from».id.toList, (getConnectorSymbol c.type).toList,
      c.«to».type.toList, c.«to».id.toList]

instance (c : DiagramConnection) : Decidable (interiorTokensOk c) := by
  unfold interiorTokensOk; infer_instance

/-- The property claim C1 asserts of a connection list: the first line of
the serialized text is `@startdiagram`, the last is `@enddiagram`, the
interior lines are exactly one line per connection in input order, and
each interior line tokenizes into the five fields. -/
def serializeShapeOk (cs : List DiagramConnection) : Prop :=
  linesOf (serialize cs) =
    "@startdiagram".toList :: cs.map (fun c => (serializeLine c).toList)
      ++ ["@enddiagram".toList]
  ∧ ∀ c ∈ cs, interiorTokensOk c

instance (cs : List DiagramConnection) : Decidable (serializeShapeOk cs) := by
  unfold serializeShapeOk; infer_instance

/-- C1 (amended): for every list of connections whose endpoint service
types and node ids are nonempty and free of space and newline characters,
`serialize` returns text whose first line is `@startdiagram`, whose last
line is `@enddiagram`, and which contains, in input order, exactly one
interior line per connection, tokenizing as
`<serviceType> <nodeId> <connector> <serviceType> <nodeId>`. -/
theorem serialize_shape_ok (cs : List DiagramConnection)
    (h : ∀ c ∈ cs, wfConnection c) : serializeShapeOk cs :=
  ⟨linesOf_serialize h, fun c hc => tokens_serializeLine (h c hc)⟩

/-- A connection whose `from` node id contains a space: its interior line
tokenizes into six tokens, refuting claim C1 as stated (over all
connection lists). -/
def spacedConn : DiagramConnection :=
  { id := "conn-1", «from» := ⟨"web 1", "aws-ec2"⟩, «to» := ⟨"db", "aws-rds"⟩,
    type := some "solid" }

/-- C1 counterexample: the claim's property fails on the singleton list
containing `spacedConn`, whose `from` node id is `"web 1"`. -/
theorem serialize_shape_not_universal : ¬ serializeShapeOk [spacedConn] := by
  decide

/-- Closed instance discharging the hypothesis of `serialize_shape_ok`. -/
theorem serialize_shape_ok_witness :
    serializeShapeOk [⟨"conn-1", ⟨"web", "aws-ec2"⟩, ⟨"db", "aws-rds"⟩,
      none, some "solid", none⟩] :=
  serialize_shape_ok _ (by decide)

/-! ## Claim C5: sanitization before serialization -/

/-- The character set `[a-zA-Z0-9_-]` named by the spec. -/
def allowedChar (c : Char) : Prop :=
  ('a' ≤ c ∧ c ≤ 'z') ∨ ('A' ≤ c ∧ c ≤ 'Z') ∨ ('0' ≤ c ∧ c ≤ '9') ∨
    c = '_' ∨ c = '-'

instance (c : Char) : Decidable (allowedChar c) := by
  unfold allowedChar; infer_instance

/-- Characters that the diagram syntax itself contributes: token and line
separators, the `@` of the markers, and the connector symbol characters
(`-` is already in `allowedChar`). -/
def structuralChar (c : Char) : Prop :=
  c = ' ' ∨ c = '\n' ∨ c = '@' ∨ c = '>' ∨ c = '.'

instance (c : Char) : Decidable (structuralChar c) := by
  unfold structuralChar; infer_instance

/-- The consequence claim C5 asserts of a connection list: were node ids
and types sanitized to `[a-zA-Z0-9_-]` before serialization, every
character of the serialized text would be an allowed character or one of
the structural characters of the syntax. -/
def serializedCharsOk (cs : List DiagramConnection) : Prop :=
  ∀ ch ∈ (serialize cs).toList, allowedChar ch ∨ structuralChar ch

instance (cs : List DiagramConnection) : Decidable (serializedCharsOk cs) := by
  unfold serializedCharsOk; infer_instance

/-- A connection whose `from` node id contains `'!'`, a character outside
`[a-zA-Z0-9_-]`. -/
def unsanitizedConn : DiagramConnection :=
  { id := "conn-2", «from» := ⟨"db!", "aws-rds"⟩, «to» := ⟨"web", "aws-ec2"⟩,
    type := some "solid" }

/-- C5 counterexample: `serialize` applies no sanitization and no
rejection, so the text serialized from `unsanitizedConn` contains `'!'`,
a character outside `[a-zA-Z0-9_-]` and outside the syntax's structural
characters. -/
theorem serialize_not_sanitized : ¬ serializedCharsOk [unsanitizedConn] := by
  decide

/-- C5 (amended): the `sanitize` helper of `types.ts` maps every
character outside `[a-zA-Z0-9_\- ]` to `'_'` — so its output consists of
characters of `[a-zA-Z0-9_-]` *or the space character*, which the helper
preserves — and it preserves length; but `serialize` never invokes it:
node ids reach the serialized text verbatim, as witnessed by the `'!'`
of `unsanitizedConn` surviving into the output. -/
theorem sanitize_behaviour :
    (∀ s : String, (∀ ch ∈ (sanitize s).toList, allowedChar ch ∨ ch = ' ')
      ∧ (sanitize s).toList.length = s.toList.length)
    ∧ '!' ∈ (serialize [unsanitizedConn]).toList := by
  constructor
  · intro s
    constructor
    · intro ch hch
      have : (sanitize s).toList = s.toList.map sanitizeChar := rfl
      rw [this] at hch
      rcases List.mem_map.mp hch with ⟨c, _, hc⟩
      subst hc
      unfold sanitizeChar
      by_cases hcond : ('a' ≤ c ∧ c ≤ 'z') ∨ ('A' ≤ c ∧ c ≤ 'Z') ∨
          ('0' ≤ c ∧ c ≤ '9') ∨ c = '_' ∨ c = '-' ∨ c = ' '
      · rw [if_pos hcond]
        rcases hcond with h | h | h | h | h | h
        · exact Or.inl (Or.inl h)
        · exact Or.inl (Or.inr (Or.inl h))
        · exact Or.inl (Or.inr (Or.inr (Or.inl h)))
        · exact Or.inl (Or.inr (Or.inr (Or.inr (Or.inl h))))
        · exact Or.inl (Or.inr (Or.inr (Or.inr (Or.inr h))))
        · exact Or.inr h
      · rw [if_neg hcond]
        exact Or.inl (by decide)
    · have : (sanitize s).toList = s.toList.map sanitizeChar := rfl
      rw [this, List.length_map]
  · decide

/-! ## Claim C6: canonical connector symbols -/

/-- C6: serialization maps each connector kind to its fixed canonical
symbol: solid to `->`, dashed to `-->`, dotted to `..>`; the mapping is
the single function `getConnectorSymbol` used for every connection. -/
theorem connector_symbols_canonical :
    getConnectorSymbol (some "solid") = "->"
    ∧ getConnectorSymbol (some "dashed") = "-->"
    ∧ getConnectorSymbol (some "dotted") = "..>" :=
  ⟨rfl, rfl, rfl⟩

/-! ## Claim C9: totality of the connector default -/

/-- C9: a connection whose `type` field is `undefined`, or holds a string
other than the three recognized kinds, serializes with the solid symbol
`->` in its edge line. -/
theorem connector_defaults_to_solid (conn : DiagramConnection)
    (h : conn.type = none ∨
      ∀ s, conn.type = some s → s ≠ "solid" ∧ s ≠ "dashed" ∧ s ≠ "dotted") :
    getConnectorSymbol conn.type = "->"
    ∧ serializeLine conn = conn.«from».type ++ " " ++ conn.«from».id ++ " " ++
        "->" ++ " " ++ conn.«to».type ++ " " ++ conn.«to».id := by
  have hsym : getConnectorSymbol conn.type = "->" := by
    rcases h with h | h
    · rw [h]; rfl
    · rcases ht : conn.type with _ | s
      · rfl
      · have hne := h s ht
        unfold getConnectorSymbol
        split
        · rename_i heq; exact absurd (Option.some.inj heq) hne.2.1
        · rename_i heq; exact absurd (Option.some.inj heq) hne.2.2
        · rfl
  exact ⟨hsym, by rw [serializeLine, hsym]⟩

/-- Closed instance of `connector_defaults_to_solid` at a connection
whose `type` is the unrecognized string `"zigzag"`. -/
theorem connector_defaults_to_solid_witness :
    getConnectorSymbol (DiagramConnection.type
      ⟨"conn-3", ⟨"web", "aws-ec2"⟩, ⟨"db", "aws-rds"⟩, none, some "zigzag", none⟩) = "->"
    ∧ serializeLine ⟨"conn-3", ⟨"web", "aws-ec2"⟩, ⟨"db", "aws-rds"⟩,
        none, some "zigzag", none⟩ = "aws-ec2" ++ " " ++ "web" ++ " " ++
        "->" ++ " " ++ "aws-rds" ++ " " ++ "db" :=
  connector_defaults_to_solid
    ⟨"conn-3", ⟨"web", "aws-ec2"⟩, ⟨"db", "aws-rds"⟩, none, some "zigzag", none⟩
    (Or.inr (fun s hs => by
      rw [Option.some.inj hs.symm]
      exact ⟨by decide, by decide, by decide⟩))

/-! ## Claim C2: round-trip through the codec

No `parse` implementation ships under `src/` (the backend README and the
spec describe it; the frontend only serializes), so the parser below is
modelled from the spec, §4.1, and the round-trip property is settled
against it together with the real `serialize`. -/

/-- Modelled from the spec: the ConnectorKind of §3,
`{solid, dashed, dotted}`. -/
inductive ConnectorKind where
  | solid
  | dashed
  | dotted
deriving DecidableEq, Repr

/-- The TS string stored in a connection's `type` field for each kind. -/
def connectorName : ConnectorKind → String
  | .solid => "solid"
  | .dashed => "dashed"
  | .dotted => "dotted"

/-- Modelled from the spec: connector symbols map bidirectionally to
kinds; unrecognized symbols default to solid (lenient parsing, §4.1). -/
def parseConnector : String → ConnectorKind
  | "-->" => .dashed
  | "..>" => .dotted
  | _ => .solid

/-- Modelled from the spec: the fixed ServiceType catalog (§3), as the
service identifiers of the frontend's sidebar — the identifiers the
backend README documents for the diagram format. -/
def catalog : List String :=
  ["aws-ec2", "aws-lambda", "aws-s3", "aws-rds", "aws-vpc", "aws-iam",
   "aws-cloudfront", "aws-sqs",
   "azure-vm", "azure-functions", "azure-storage", "azure-sql",
   "azure-vnet", "azure-ad", "azure-cdn", "azure-service-bus",
   "gcp-compute", "gcp-cloud-functions", "gcp-storage", "gcp-sql",
   "gcp-vpc", "gcp-iam", "gcp-cdn", "gcp-pubsub",
   "load-balancer", "api-gateway", "monitoring", "logging"]

/-- Modelled from the spec: a DiagramEdge (§3) as recovered from one
interior line: `(serviceType, id)` pairs for both endpoints plus the
connector kind. -/
structure ParsedEdge where
  fromType : String
  fromId : String
  connector : ConnectorKind
  toType : String
  toId : String
deriving DecidableEq, Repr

/-- Modelled from the spec: a structural `ParseError` carrying the
offending line number (§4.1). -/
structure ParseError where
  line : Nat
  message : String
deriving DecidableEq, Repr

/-- A line is blank when it consists only of spaces. -/
def isBlank (l : List Char) : Bool :=
  l.all (fun c => c == ' ')

/-- Pair each line with its 1-based line number. -/
def numberLines (k : Nat) : List (List Char) → List (Nat × List Char)
  | [] => []
  | l :: ls => (k, l) :: numberLines (k + 1) ls

/-- Modelled from the spec: parse one interior line —
five whitespace-separated tokens, both service types resolvable in the
catalog, connector parsed leniently (§4.1). -/
def parseLine (lineNo : Nat) (l : List Char) : Except ParseError ParsedEdge :=
  match tokensOf l with
  | [ft, fi, cn, tt2, ti] =>
    if String.mk ft ∈ catalog then
      if String.mk tt2 ∈ catalog then
        .ok ⟨String.mk ft, String.mk fi, parseConnector (String.mk cn),
          String.mk tt2, String.mk ti⟩
      else .error ⟨lineNo, "unknown service type: " ++ String.mk tt2⟩
    else .error ⟨lineNo, "unknown service type: " ++ String.mk ft⟩
  | _ => .error ⟨lineNo, "expected: serviceType nodeId connector serviceType nodeId"⟩

/-- Parse the numbered interior lines in order. -/
def parseLines : List (Nat × List Char) → Except ParseError (List ParsedEdge)
  | [] => .ok []
  | (n, l) :: rest =>
    match parseLine n l with
    | .error e => .error e
    | .ok edge =>
      match parseLines rest with
      | .error e => .error e
      | .ok edges => .ok (edge :: edges)

/-- After the start marker: require the end marker to be the last
non-blank line, then parse the interior lines. -/
def parseTail (n : Nat) (rest : List (Nat × List Char)) :
    Except ParseError (List ParsedEdge) :=
  match rest.getLast? with
  | none => .error ⟨n, "missing @enddiagram marker"⟩
  | some (m, last) =>
    if last = "@enddiagram".toList then parseLines rest.dropLast
    else .error ⟨m, "missing @enddiagram marker"⟩

/-- The first non-blank line must be the start marker. -/
def parseBody (n : Nat) (first : List Char) (rest : List (Nat × List Char)) :
    Except ParseError (List ParsedEdge) :=
  if first = "@startdiagram".toList then parseTail n rest
  else .error ⟨n, "missing @startdiagram marker"⟩

/-- Modelled from the spec: `parse(text) -> DiagramGraph | ParseError`
(§4.1) — split into lines, ignore blank lines, require the start marker
first and the end marker last, parse each interior line. -/
def parse (text : String) : Except ParseError (List ParsedEdge) :=
  match (numberLines 1 (linesOf text)).filter (fun p => !isBlank p.2) with
  | [] => .error ⟨1, "missing @startdiagram marker"⟩
  | (n, first) :: rest => parseBody n first rest

/-- The connection a parsed edge presents to `serialize`: endpoints
become node references, the connector kind becomes the TS `type`
string. -/
def connOf (e : ParsedEdge) : DiagramConnection :=
  { id := "", «from» := ⟨e.fromId, e.fromType⟩, «to» := ⟨e.toId, e.toType⟩,
    label := none, type := some (connectorName e.connector), color := none }

/-- The connection list a parsed graph presents to `serialize`. -/
def toConnections (g : List ParsedEdge) : List DiagramConnection :=
  g.map connOf

/-- The invariant every edge of a valid parse satisfies: each field fills
one whitespace-separated token of one line, and both types resolve. -/
def wfEdge (e : ParsedEdge) : Prop :=
  wfToken e.fromType ∧ wfToken e.fromId ∧ wfToken e.toType ∧ wfToken e.toId
  ∧ e.fromType ∈ catalog ∧ e.toType ∈ catalog

instance (e : ParsedEdge) : Decidable (wfEdge e) := by
  unfold wfEdge; infer_instance

deriving instance DecidableEq for Except

theorem mk_toList (s : String) : String.mk s.toList = s := rfl

theorem mem_tokensOf {l part : List Char} (h : part ∈ tokensOf l) :
    part ≠ [] ∧ ' ' ∉ part ∧ ∀ c ∈ part, c ∈ l := by
  unfold tokensOf at h
  have hmem := List.mem_of_mem_filter h
  have hne : part ≠ [] := by
    have := List.of_mem_filter h
    simpa [List.isEmpty_iff] using this
  exact ⟨hne, mem_splitOnChar_not_mem hmem, mem_splitOnChar_subset hmem⟩

theorem parseLine_eq_of_tokens {n : Nat} {l ft fi cn tt2 ti : List Char}
    (hl : tokensOf l = [ft, fi, cn, tt2, ti]) :
    parseLine n l =
      if String.mk ft ∈ catalog then
        if String.mk tt2 ∈ catalog then
          .ok ⟨String.mk ft, String.mk fi, parseConnector (String.mk cn),
            String.mk tt2, String.mk ti⟩
        else .error ⟨n, "unknown service type: " ++ String.mk tt2⟩
      else .error ⟨n, "unknown service type: " ++ String.mk ft⟩ := by
  unfold parseLine
  rw [hl]

theorem parseLine_ok_wf {n : Nat} {l : List Char} {e : ParsedEdge}
    (hnl : '\n' ∉ l) (h : parseLine n l = .ok e) : wfEdge e := by
  rcases htoks : tokensOf l with _ | ⟨ft, _ | ⟨fi, _ | ⟨cn, _ | ⟨tt2, _ | ⟨ti, _ | ⟨x, more⟩⟩⟩⟩⟩⟩ <;>
    unfold parseLine at h <;> rw [htoks] at h <;>
    try exact Except.noConfusion h
  rw [show (match [ft, fi, cn, tt2, ti] with
    | [ft, fi, cn, tt2, ti] =>
      if String.mk ft ∈ catalog then
        if String.mk tt2 ∈ catalog then
          (.ok ⟨String.mk ft, String.mk fi, parseConnector (String.mk cn),
            String.mk tt2, String.mk ti⟩ : Except ParseError ParsedEdge)
        else .error ⟨n, "unknown service type: " ++ String.mk tt2⟩
      else .error ⟨n, "unknown service type: " ++ String.mk ft⟩
    | _ => .error ⟨n, "expected: serviceType nodeId connector serviceType nodeId"⟩) =
      if String.mk ft ∈ catalog then
        if String.mk tt2 ∈ catalog then
          (.ok ⟨String.mk ft, String.mk fi, parseConnector (String.mk cn),
            String.mk tt2, String.mk ti⟩ : Except ParseError ParsedEdge)
        else .error ⟨n, "unknown service type: " ++ String.mk tt2⟩
      else .error ⟨n, "unknown service type: " ++ String.mk ft⟩ from rfl] at h
  by_cases hft : String.mk ft ∈ catalog
  · rw [if_pos hft] at h
    by_cases htt : String.mk tt2 ∈ catalog
    · rw [if_pos htt] at h
      have he := Except.ok.inj h
      subst he
      have hft_tok := mem_tokensOf (htoks ▸ List.mem_cons_self ft _)
      have hfi_tok := mem_tokensOf
        (htoks ▸ List.mem_cons_of_mem ft (List.mem_cons_self fi _))
      have htt_tok := mem_tokensOf (htoks ▸ List.mem_cons_of_mem ft
        (List.mem_cons_of_mem fi (List.mem_cons_of_mem cn (List.mem_cons_self tt2 _))))
      have hti_tok := mem_tokensOf (htoks ▸ List.mem_cons_of_mem ft
        (List.mem_cons_of_mem fi (List.mem_cons_of_mem cn
          (List.mem_cons_of_mem tt2 (List.mem_cons_self ti _)))))
      refine ⟨⟨hft_tok.1, hft_tok.2.1, ?_⟩, ⟨hfi_tok.1, hfi_tok.2.1, ?_⟩,
        ⟨htt_tok.1, htt_tok.2.1, ?_⟩, ⟨hti_tok.1, hti_tok.2.1, ?_⟩, hft, htt⟩
      · exact fun hm => hnl (hft_tok.2.2 '\n' hm)
      · exact fun hm => hnl (hfi_tok.2.2 '\n' hm)
      · exact fun hm => hnl (htt_tok.2.2 '\n' hm)
      · exact fun hm => hnl (hti_tok.2.2 '\n' hm)
    · rw [if_neg htt] at h
      exact Except.noConfusion h
  · rw [if_neg hft] at h
    exact Except.noConfusion h

theorem parseLines_ok_mem {lns : List (Nat × List Char)} {es : List ParsedEdge}
    (h : parseLines lns = .ok es) :
    ∀ e ∈ es, ∃ p ∈ lns, parseLine p.1 p.2 = .ok e := by
  induction lns generalizing es with
  | nil =>
    unfold parseLines at h
    have := Except.ok.inj h
    subst this
    intro e he
    exact absurd he (List.not_mem_nil e)
  | cons p rest ih =>
    obtain ⟨n, l⟩ := p
    unfold parseLines at h
    rcases hline : parseLine n l with e0 | edge
    · rw [hline] at h; exact Except.noConfusion h
    · rw [hline] at h
      rcases hrest : parseLines rest with e1 | edges
      · rw [hrest] at h; exact Except.noConfusion h
      · rw [hrest] at h
        have := Except.ok.inj h
        subst this
        intro e he
        rcases List.mem_cons.mp he with he | he
        · exact ⟨(n, l), List.mem_cons_self _ _, he ▸ hline⟩
        · rcases ih hrest e he with ⟨q, hq, hq2⟩
          exact ⟨q, List.mem_cons_of_mem _ hq, hq2⟩

theorem mem_numberLines_snd {k : Nat} {ls : List (List Char)}
    {p : Nat × List Char} (h : p ∈ numberLines k ls) : p.2 ∈ ls := by
  induction ls generalizing k with
  | nil => exact absurd h (List.not_mem_nil p)
  | cons l ls ih =>
    rcases List.mem_cons.mp h with h | h
    · rw [h]; exact List.mem_cons_self _ _
    · exact List.mem_cons_of_mem _ (ih h)

theorem parse_eq_of_content {text : String} {n : Nat} {first : List Char}
    {rest : List (Nat × List Char)}
    (hc : (numberLines 1 (linesOf text)).filter (fun p => !isBlank p.2)
      = (n, first) :: rest) :
    parse text = parseBody n first rest := by
  unfold parse
  rw [hc]

theorem parseTail_eq_of_getLast {n m : Nat} {last : List Char}
    {rest : List (Nat × List Char)} (hl : rest.getLast? = some (m, last)) :
    parseTail n rest =
      if last = "@enddiagram".toList then parseLines rest.dropLast
      else .error ⟨m, "missing @enddiagram marker"⟩ := by
  unfold parseTail
  rw [hl]

theorem parse_ok_wf {text : String} {g : List ParsedEdge}
    (h : parse text = .ok g) : ∀ e ∈ g, wfEdge e := by
  rcases hc : (numberLines 1 (linesOf text)).filter (fun p => !isBlank p.2)
    with _ | ⟨⟨n, first⟩, rest⟩
  · unfold parse at h
    rw [hc] at h
    exact Except.noConfusion h
  · rw [parse_eq_of_content hc] at h
    unfold parseBody at h
    by_cases hfst : first = "@startdiagram".toList
    · rw [if_pos hfst] at h
      rcases hlast : rest.getLast? with _ | ⟨m, last⟩
      · unfold parseTail at h
        rw [hlast] at h
        exact Except.noConfusion h
      · rw [parseTail_eq_of_getLast hlast] at h
        by_cases hend : last = "@enddiagram".toList
        · rw [if_pos hend] at h
          intro e he
          rcases parseLines_ok_mem h e he with ⟨p, hp, hpl⟩
          have hp_rest : p ∈ rest := (List.dropLast_sublist rest).subset hp
          have hp_content : p ∈ (numberLines 1 (linesOf text)).filter
              (fun p => !isBlank p.2) := by
            rw [hc]; exact List.mem_cons_of_mem _ hp_rest
          have hp_num := List.mem_of_mem_filter hp_content
          have hl := mem_numberLines_snd hp_num
          exact parseLine_ok_wf (mem_splitOnChar_not_mem hl) hpl
        · rw [if_neg hend] at h; exact Except.noConfusion h
    · rw [if_neg hfst] at h; exact Except.noConfusion h

theorem numberLines_append (k : Nat) (a b : List (List Char)) :
    numberLines k (a ++ b) = numberLines k a ++ numberLines (k + a.length) b := by
  induction a generalizing k with
  | nil => simp [numberLines]
  | cons l a' ih =>
    have h1 : numberLines k ((l :: a') ++ b) = (k, l) :: numberLines (k + 1) (a' ++ b) := rfl
    rw [h1, ih]
    have h2 : k + 1 + a'.length = k + (l :: a').length := by
      rw [List.length_cons]; omega
    rw [h2]
    rfl

theorem wfConnection_connOf {e : ParsedEdge} (h : wfEdge e) :
    wfConnection (connOf e) :=
  ⟨h.1, h.2.1, h.2.2.1, h.2.2.2.1⟩

theorem parseConnector_connectorSymbol (k : ConnectorKind) :
    parseConnector (getConnectorSymbol (some (connectorName k))) = k := by
  cases k <;> rfl

theorem tokensOf_serializeLine {c : DiagramConnection} (h : wfConnection c) :
    tokensOf (serializeLine c).toList =
      [c.«from».type.toList, c.«from».id.toList, (getConnectorSymbol c.type).toList,
        c.«to».type.toList, c.«to».id.toList] := by
  unfold tokensOf
  rw [tokens_serializeLine h]
  have hsym := getConnectorSymbol_wfToken c.type
  have h1 : c.«from».type.data ≠ [] := h.1.1
  have h2 : c.«from».id.data ≠ [] := h.2.1.1
  have h3 : (getConnectorSymbol c.type).data ≠ [] := hsym.1
  have h4 : c.«to».type.data ≠ [] := h.2.2.1.1
  have h5 : c.«to».id.data ≠ [] := h.2.2.2.1
  simp [List.filter_cons, List.isEmpty_iff, String.toList, h1, h2, h3, h4, h5]

theorem parseLine_serializeLine {e : ParsedEdge} (n : Nat) (hwf : wfEdge e) :
    parseLine n (serializeLine (connOf e)).toList = .ok e := by
  rw [parseLine_eq_of_tokens (tokensOf_serializeLine (wfConnection_connOf hwf))]
  simp only [connOf, mk_toList, parseConnector_connectorSymbol]
  rw [if_pos hwf.2.2.2.2.1, if_pos hwf.2.2.2.2.2]

theorem parseLines_serialized {g : List ParsedEdge} (k : Nat)
    (hwf : ∀ e ∈ g, wfEdge e) :
    parseLines (numberLines k (g.map (fun e => (serializeLine (connOf e)).toList)))
      = .ok g := by
  induction g generalizing k with
  | nil => rfl
  | cons e g' ih =>
    have h1 : numberLines k ((e :: g').map (fun e => (serializeLine (connOf e)).toList))
        = (k, (serializeLine (connOf e)).toList) ::
          numberLines (k + 1) (g'.map (fun e => (serializeLine (connOf e)).toList)) := rfl
    rw [h1]
    unfold parseLines
    rw [parseLine_serializeLine k (hwf e (List.mem_cons_self e g'))]
    rw [ih (k + 1) (fun e2 he2 => hwf e2 (List.mem_cons_of_mem e he2))]

theorem isBlank_serializeLine {c : DiagramConnection} (h : wfConnection c) :
    isBlank (serializeLine c).toList = false := by
  rw [serializeLine_toList]
  rcases hf : c.«from».type.toList with _ | ⟨ch, chs⟩
  · exact absurd hf h.1.1
  · have hch : ch ≠ ' ' := fun he => h.1.2.1 (hf ▸ (he ▸ List.mem_cons_self ch chs))
    simp [isBlank, hch]

theorem parse_serialize_of_wf {g : List ParsedEdge}
    (hwf : ∀ e ∈ g, wfEdge e) :
    parse (serialize (toConnections g)) = .ok g := by
  have hcw : ∀ c ∈ toConnections g, wfConnection c := by
    intro c hc
    rcases List.mem_map.mp hc with ⟨e, he, rfl⟩
    exact wfConnection_connOf (hwf e he)
  have hlines := linesOf_serialize hcw
  rw [show (toConnections g).map (fun c => (serializeLine c).toList)
      = g.map (fun e => (serializeLine (connOf e)).toList) from by
    rw [toConnections, List.map_map]; rfl] at hlines
  have hall : ∀ p ∈ numberLines 1 (linesOf (serialize (toConnections g))),
      (!isBlank p.2) = true := by
    intro p hp
    have hsnd := mem_numberLines_snd hp
    rw [hlines] at hsnd
    rcases List.mem_cons.mp hsnd with hs | hs
    · rw [hs]; decide
    · rcases List.mem_append.mp hs with hs | hs
      · rcases List.mem_map.mp hs with ⟨e, he, hel⟩
        rw [← hel, isBlank_serializeLine (wfConnection_connOf (hwf e he))]
        rfl
      · rw [List.mem_singleton.mp hs]; decide
  have hmid :
      numberLines 1 (linesOf (serialize (toConnections g)))
        = (1, "@startdiagram".toList) ::
          (numberLines 2 (g.map (fun e => (serializeLine (connOf e)).toList)) ++
            [(1 + ("@startdiagram".toList ::
                g.map (fun e => (serializeLine (connOf e)).toList)).length,
              "@enddiagram".toList)]) := by
    rw [hlines, numberLines_append]
    rfl
  have hcontent : (numberLines 1 (linesOf (serialize (toConnections g)))).filter
      (fun p => !isBlank p.2)
      = (1, "@startdiagram".toList) ::
        (numberLines 2 (g.map (fun e => (serializeLine (connOf e)).toList)) ++
          [(1 + ("@startdiagram".toList ::
              g.map (fun e => (serializeLine (connOf e)).toList)).length,
            "@enddiagram".toList)]) := by
    rw [List.filter_eq_self.mpr hall, hmid]
  rw [parse_eq_of_content hcontent]
  unfold parseBody
  rw [if_pos rfl]
  rw [parseTail_eq_of_getLast (List.getLast?_concat _)]
  rw [if_pos rfl]
  rw [List.dropLast_concat]
  exact parseLines_serialized 2 hwf

/-- C2: for every graph produced by a valid parse, serializing it and
parsing the result yields the same edge list — identical edge multiset in
identical order. -/
theorem parse_serialize_roundtrip (text : String) (g : List ParsedEdge)
    (h : parse text = .ok g) :
    parse (serialize (toConnections g)) = .ok g :=
  parse_serialize_of_wf (parse_ok_wf h)

/-- Closed instance of `parse_serialize_roundtrip` on the spec's example
diagram text. -/
theorem parse_serialize_roundtrip_witness :
    parse (serialize (toConnections
      [⟨"aws-ec2", "web", ConnectorKind.solid, "aws-rds", "db"⟩]))
      = .ok [⟨"aws-ec2", "web", ConnectorKind.solid, "aws-rds", "db"⟩] :=
  parse_serialize_roundtrip "@startdiagram\naws-ec2 web -> aws-rds db\n@enddiagram"
    [⟨"aws-ec2", "web", ConnectorKind.solid, "aws-rds", "db"⟩] (by decide)

/-! ## The vector similarity search (backend/setup_supabase.sql)

`match_compliance_rules(query_embedding, match_threshold, match_count)`
runs, over the `compliance_rules` table:

```
SELECT ..., 1 - (embedding <=> query_embedding) AS similarity
FROM compliance_rules
WHERE 1 - (embedding <=> query_embedding) > match_threshold
ORDER BY embedding <=> query_embedding
LIMIT match_count;
```

The `<=>` operator is pgvector's cosine-distance, computed inside the
external vector store; we model it as an abstract assignment
`dist : ComplianceRule → ℚ` of the distance of each stored row's
embedding to the query embedding (`FLOAT` is modelled by `ℚ`).  SQL's
`ORDER BY` does not fix the relative order of rows at equal distance, so
the result is modelled relationally: `IsMatchResult` holds of every row
sequence the query may return. -/

structure ComplianceRule where
  id : Nat
  title : String
  description : String
  details : String
  service_id : String
  category : String
  severity : String
  provider : String
deriving DecidableEq, Repr

structure RetrievedMatch where
  rule : ComplianceRule
  similarity : ℚ
deriving DecidableEq, Repr

/-- The rows surviving the `WHERE` clause:
`1 - (embedding <=> query_embedding) > match_threshold`. -/
def matchRows (dist : ComplianceRule → ℚ) (rules : List ComplianceRule)
    (match_threshold : ℚ) : List ComplianceRule :=
  rules.filter (fun r => decide (match_threshold < 1 - dist r))

/-- `out` is a possible result of
`match_compliance_rules(query, match_threshold, match_count)` over the
stored `rules`: some arrangement of the kept rows that is sorted by
ascending distance (`ORDER BY embedding <=> query_embedding`), truncated
to `match_count` rows (`LIMIT`), each row paired with its reported
`similarity = 1 - distance`. -/
def IsMatchResult (dist : ComplianceRule → ℚ) (rules : List ComplianceRule)
    (match_threshold : ℚ) (match_count : Nat)
    (out : List RetrievedMatch) : Prop :=
  ∃ sorted : List ComplianceRule,
    sorted.Perm (matchRows dist rules match_threshold)
    ∧ sorted.Pairwise (fun a b => dist a ≤ dist b)
    ∧ out = (sorted.take match_count).map
        (fun r => { rule := r, similarity := 1 - dist r })

/-- C3: a retrieval call returns at most `match_count` matches, and every
returned match has similarity strictly greater than the threshold. -/
theorem match_count_and_threshold (dist : ComplianceRule → ℚ)
    (rules : List ComplianceRule) (match_threshold : ℚ) (match_count : Nat)
    (out : List RetrievedMatch)
    (h : IsMatchResult dist rules match_threshold match_count out) :
    out.length ≤ match_count
    ∧ ∀ m ∈ out, match_threshold < m.similarity := by
  rcases h with ⟨sorted, hperm, hsorted, hout⟩
  constructor
  · rw [hout, List.length_map, List.length_take]
    exact min_le_left _ _
  · intro m hm
    rw [hout] at hm
    rcases List.mem_map.mp hm with ⟨r, hr, hrm⟩
    have hr2 : r ∈ matchRows dist rules match_threshold :=
      hperm.mem_iff.mp (List.take_subset _ _ hr)
    have := List.of_mem_filter hr2
    have hlt : match_threshold < 1 - dist r := of_decide_eq_true this
    rw [← hrm]
    exact hlt

/-- Closed instance discharging the hypothesis of
`match_count_and_threshold` with one stored rule at distance `0`. -/
theorem match_count_and_threshold_witness :
    IsMatchResult (fun _ => 0) [⟨1, "t", "d", "x", "s", "c", "sev", "p"⟩] 0 5
      [⟨⟨1, "t", "d", "x", "s", "c", "sev", "p"⟩, 1⟩]
    ∧ ([⟨⟨1, "t", "d", "x", "s", "c", "sev", "p"⟩, 1⟩] : List RetrievedMatch).length ≤ 5
    ∧ ∀ m ∈ ([⟨⟨1, "t", "d", "x", "s", "c", "sev", "p"⟩, 1⟩] : List RetrievedMatch),
        (0 : ℚ) < m.similarity := by
  have hres : IsMatchResult (fun _ => 0) [⟨1, "t", "d", "x", "s", "c", "sev", "p"⟩] 0 5
      [⟨⟨1, "t", "d", "x", "s", "c", "sev", "p"⟩, 1⟩] := by
    refine ⟨[⟨1, "t", "d", "x", "s", "c", "sev", "p"⟩], ?_, ?_, ?_⟩
    · have heq : matchRows (fun _ => 0) [⟨1, "t", "d", "x", "s", "c", "sev", "p"⟩] 0
          = [⟨1, "t", "d", "x", "s", "c", "sev", "p"⟩] := by
        norm_num [matchRows, List.filter_cons]
      rw [heq]
    · exact List.pairwise_singleton _ _
    · norm_num [List.take_succ_cons, List.map_cons]
  exact ⟨hres, (match_count_and_threshold _ _ _ _ _ hres).1,
    (match_count_and_threshold _ _ _ _ _ hres).2⟩

def rule1 : ComplianceRule := ⟨1, "r1", "d1", "x1", "s1", "c1", "low", "aws"⟩

def rule2 : ComplianceRule := ⟨2, "r2", "d2", "x2", "s2", "c2", "high", "aws"⟩

/-- The ordering claim C4 asserts of a result: descending similarity,
with equal-similarity matches ordered by rule id. -/
def descendingWithIdTies (out : List RetrievedMatch) : Prop :=
  out.Pairwise (fun a b => b.similarity ≤ a.similarity
    ∧ (a.similarity = b.similarity → a.rule.id ≤ b.rule.id))

instance (out : List RetrievedMatch) : Decidable (descendingWithIdTies out) := by
  unfold descendingWithIdTies; infer_instance

/-- C4 (amended): every possible result is ordered descending by
similarity; the SQL orders only by distance and has no id tie-break, so
equal-similarity matches may come back in any relative order. -/
theorem match_similarity_descending (dist : ComplianceRule → ℚ)
    (rules : List ComplianceRule) (match_threshold : ℚ) (match_count : Nat)
    (out : List RetrievedMatch)
    (h : IsMatchResult dist rules match_threshold match_count out) :
    out.Pairwise (fun a b => b.similarity ≤ a.similarity) := by
  rcases h with ⟨sorted, hperm, hsorted, hout⟩
  rw [hout]
  exact List.Pairwise.map _
    (fun a b hab => by simpa using sub_le_sub_left hab 1)
    (List.Pairwise.sublist (List.take_sublist _ _) hsorted)

/-- C4 counterexample: with two rules stored at equal distance, the query
may return the higher rule id first — a possible result violating the
claimed id tie-break (and hence the claimed determinism). -/
theorem match_tie_not_by_id :
    IsMatchResult (fun _ => 0) [rule1, rule2] (-1) 5 [⟨rule2, 1⟩, ⟨rule1, 1⟩]
    ∧ ¬ descendingWithIdTies [⟨rule2, 1⟩, ⟨rule1, 1⟩] := by
  constructor
  · refine ⟨[rule2, rule1], ?_, ?_, ?_⟩
    · have heq : matchRows (fun _ => 0) [rule1, rule2] (-1) = [rule1, rule2] := by
        norm_num [matchRows, List.filter_cons]
      rw [heq]
      exact List.Perm.swap rule1 rule2 []
    · exact List.pairwise_pair.mpr (le_refl 0)
    · norm_num [List.take_succ_cons, List.map_cons]
  · decide

/-- Closed instance discharging the hypothesis of
`match_similarity_descending` with two rules at distinct distances. -/
theorem match_similarity_descending_witness :
    List.Pairwise (fun a b => b.similarity ≤ a.similarity)
      [(⟨rule1, 1⟩ : RetrievedMatch), ⟨rule2, 1/2⟩] :=
  match_similarity_descending (fun r => if r.id = 1 then 0 else 1/2)
    [rule1, rule2] (-1) 5 [⟨rule1, 1⟩, ⟨rule2, 1/2⟩]
    (by
      refine ⟨[rule1, rule2], ?_, ?_, ?_⟩
      · have heq : matchRows (fun r => if r.id = 1 then 0 else 1/2)
            [rule1, rule2] (-1) = [rule1, rule2] := by
          norm_num [matchRows, List.filter_cons, rule1, rule2]
        rw [heq]
      · refine List.pairwise_pair.mpr ?_
        norm_num [rule1, rule2]
      · norm_num [List.take_succ_cons, List.map_cons, rule1, rule2])

/-- C7: for a fixed query and limit, the number of returned matches is
antitone in the threshold. -/
theorem match_count_antitone (dist : ComplianceRule → ℚ)
    (rules : List ComplianceRule) (t1 t2 : ℚ) (match_count : Nat)
    (out1 out2 : List RetrievedMatch) (ht : t2 ≤ t1)
    (h1 : IsMatchResult dist rules t1 match_count out1)
    (h2 : IsMatchResult dist rules t2 match_count out2) :
    out1.length ≤ out2.length := by
  rcases h1 with ⟨s1, hp1, _, ho1⟩
  rcases h2 with ⟨s2, hp2, _, ho2⟩
  rw [ho1, ho2, List.length_map, List.length_map, List.length_take,
    List.length_take, hp1.length_eq, hp2.length_eq]
  refine min_le_min (le_refl match_count) ?_
  unfold matchRows
  rw [← List.countP_eq_length_filter, ← List.countP_eq_length_filter]
  refine List.countP_mono_left ?_
  intro r _ hp
  exact decide_eq_true (lt_of_le_of_lt ht (of_decide_eq_true hp))

/-- Closed instance discharging the hypotheses of `match_count_antitone`
at thresholds `0` and `-1`. -/
theorem match_count_antitone_witness :
    ([(⟨rule1, 1⟩ : RetrievedMatch)]).length ≤
      ([(⟨rule1, 1⟩ : RetrievedMatch)]).length := by
  have hres : ∀ t : ℚ, t < 1 →
      IsMatchResult (fun _ => 0) [rule1] t 5 [⟨rule1, 1⟩] := by
    intro t htl
    refine ⟨[rule1], ?_, List.pairwise_singleton _ _, ?_⟩
    · have heq : matchRows (fun _ => 0) [rule1] t = [rule1] := by
        simp only [matchRows, List.filter_cons, List.filter_nil]
        rw [if_pos (by exact decide_eq_true (by linarith))]
      rw [heq]
    · norm_num [List.take_succ_cons, List.map_cons]
  exact match_count_antitone (fun _ => 0) [rule1] 0 (-1) 5
    [⟨rule1, 1⟩] [⟨rule1, 1⟩] (by norm_num)
    (hres 0 (by norm_num)) (hres (-1) (by norm_num))

/-- C8 counterexample: with antipodal embeddings the cosine distance is
`2`; calling the search with threshold `-2` then returns a match whose
similarity is `-1`, outside `[0,1]`. -/
theorem match_similarity_negative :
    IsMatchResult (fun _ => 2) [rule1] (-2) 5 [⟨rule1, -1⟩]
    ∧ ¬ (0 ≤ (⟨rule1, -1⟩ : RetrievedMatch).similarity) := by
  constructor
  · refine ⟨[rule1], ?_, List.pairwise_singleton _ _, ?_⟩
    · have heq : matchRows (fun _ => 2) [rule1] (-2) = [rule1] := by
        norm_num [matchRows, List.filter_cons]
      rw [heq]
    · norm_num [List.take_succ_cons, List.map_cons]
  · norm_num

/-- C8 (amended): pgvector's cosine distance lies in `[0,2]`, so every
returned similarity lies in `[-1,1]` — not `[0,1]`: when the caller
passes a negative threshold, negative similarities are returned. -/
theorem match_similarity_bounds (dist : ComplianceRule → ℚ)
    (rules : List ComplianceRule) (match_threshold : ℚ) (match_count : Nat)
    (out : List RetrievedMatch)
    (hd : ∀ r ∈ rules, 0 ≤ dist r ∧ dist r ≤ 2)
    (h : IsMatchResult dist rules match_threshold match_count out) :
    ∀ m ∈ out, -1 ≤ m.similarity ∧ m.similarity ≤ 1 := by
  rcases h with ⟨sorted, hperm, _, hout⟩
  intro m hm
  rw [hout] at hm
  rcases List.mem_map.mp hm with ⟨r, hr, hrm⟩
  have hr2 : r ∈ rules := List.mem_of_mem_filter
    (hperm.mem_iff.mp (List.take_subset _ _ hr))
  have hb := hd r hr2
  rw [← hrm]
  constructor
  · simpa using by linarith [hb.2]
  · simpa using by linarith [hb.1]

/-- Closed instance discharging the hypotheses of
`match_similarity_bounds` at distance `2` and threshold `-2`. -/
theorem match_similarity_bounds_witness :
    -1 ≤ (⟨rule1, -1⟩ : RetrievedMatch).similarity
    ∧ (⟨rule1, -1⟩ : RetrievedMatch).similarity ≤ 1 :=
  match_similarity_bounds (fun _ => 2) [rule1] (-2) 5 [⟨rule1, -1⟩]
    (fun r _ => by norm_num)
    (by
      refine ⟨[rule1], ?_, List.pairwise_singleton _ _, ?_⟩
      · have heq : matchRows (fun _ => 2) [rule1] (-2) = [rule1] := by
          norm_num [matchRows, List.filter_cons]
        rw [heq]
      · norm_num [List.take_succ_cons, List.map_cons])
    ⟨rule1, -1⟩ (List.mem_singleton_self _)

/-! ## App state and deleteNode (frontend/src/App.tsx)

`Canvas.tsx` (`handleNodeClick`) creates connections with *string*
endpoints — `{ id: ..., from: connectionStart, to: nodeId, type:
'solid', color: '#6b7280' }` — matching the declared interface
`DiagramConnection { from: string; to: string }` of `types.ts`.
`deleteNode` in `App.tsx`, however, filters connections with
`conn.from.id !== id && conn.to.id !== id`: a property access `.id` on a
string primitive, which in JavaScript evaluates to `undefined`, so the
strict-inequality test is always true and the filter keeps every
connection. -/

structure DiagramNode where
  id : String
  type : String
  label : String
  x : Int
  y : Int
  width : Int
  height : Int
  color : Option String := none
  icon : Option String := none
deriving DecidableEq, Repr

/-- A connection as the Canvas flow actually stores it: both endpoints
are node-id strings (`types.ts` interface `DiagramConnection`). -/
structure CanvasConnection where
  id : String
  «from» : String
  «to» : String
  label : Option String := none
  type : Option String := none
  color : Option String := none
deriving DecidableEq, Repr

/-- The connection `handleNodeClick` creates when a connection is
completed (Canvas.tsx); the `Date.now()`-based id is a parameter. -/
def canvasConnection (connId connectionStart nodeId : String) :
    CanvasConnection :=
  { id := connId, «from» := connectionStart, «to» := nodeId,
    type := some "solid", color := some "#6b7280" }

/-- JavaScript property access `.id` on a string primitive: strings have
no `id` property, so the access yields `undefined` (modelled as
`none`). -/
def jsIdOfString (_v : String) : Option String := none

/-- JavaScript strict inequality `x !== y` between a possibly-undefined
string (left) and a string (right): `undefined !== s` is `true`. -/
def jsStrictNeq (a : Option String) (b : String) : Bool :=
  match a with
  | none => true
  | some s => s != b

structure AppState where
  nodes : List DiagramNode
  connections : List CanvasConnection
  selectedNode : Option String
deriving DecidableEq, Repr

/-- `deleteNode` from App.tsx:
`setNodes(prev => prev.filter(node => node.id !== id))`;
`setConnections(prev => prev.filter(conn => conn.from.id !== id && conn.to.id !== id))`;
`if (selectedNode === id) setSelectedNode(null)`. -/
def deleteNode (id : String) (st : AppState) : AppState :=
  { nodes := st.nodes.filter (fun node => node.id != id),
    connections := st.connections.filter (fun conn =>
      jsStrictNeq (jsIdOfString conn.«from») id
        && jsStrictNeq (jsIdOfString conn.«to») id),
    selectedNode := if st.selectedNode = some id then none
      else st.selectedNode }

def webNode : DiagramNode :=
  ⟨"web-1", "aws-ec2", "EC2", 10, 20, 100, 50, some "#FF9900", none⟩

def dbNode : DiagramNode :=
  ⟨"db-1", "aws-rds", "RDS", 200, 20, 100, 50, some "#FF9900", none⟩

/-- C10: evaluating `deleteNode` at the failing input.  Deleting node
`web-1` removes it from the node list, but the Canvas-created connection
`conn-1` with endpoint `web-1` survives: `conn.from.id` is `undefined`
for a string endpoint, so the connection filter removes nothing and a
dangling edge remains, contradicting the claim (and the evident intent
of the filter). -/
theorem deleteNode_leaves_dangling :
    (deleteNode "web-1"
        ⟨[webNode, dbNode], [canvasConnection "conn-1" "web-1" "db-1"], none⟩).nodes
      = [dbNode]
    ∧ (deleteNode "web-1"
        ⟨[webNode, dbNode], [canvasConnection "conn-1" "web-1" "db-1"], none⟩).connections
      = [canvasConnection "conn-1" "web-1" "db-1"]
    ∧ (canvasConnection "conn-1" "web-1" "db-1").«from» = "web-1" := by
  decide

end VocalHarmonizer
